import Mathlib

/-!
# Verification of the `aw_logger` asynchronous logging library

A shallow embedding of the parts of the AwakeLion `aw_logger` repository that
the specified properties talk about, together with proofs settling those
properties:

* `RingBuffer` — the bounded queue of
  `include/aw_logger/impl/ring_buffer_impl.hpp` (constructor, `push`, `pop`).
* `FileAppender` — the rotating file sink of
  `include/aw_logger/impl/file_appender_impl.hpp` (`append`, `flushToBuffer`,
  `rotateFile`, `open`, the constructors).
* `ComponentFactory` — the directive builder of
  `include/aw_logger/impl/formatter_impl.hpp` (`parsePattern`,
  `loadSettingComponents`, `registerComponents`) together with the
  `default_json_` constant of `include/aw_logger/formatter.hpp`.
* `Logger` — `submit` and `setAppender` of
  `include/aw_logger/impl/logger_impl.hpp`.

Machine integers (`size_t`) are modelled as `Nat` with explicit wrap where a
computation can overflow; C++ exceptions are modelled as explicit error
results; the file system seen by one `FileAppender` is a map from path index
to file content (index 0 is the active file, index `i ≥ 1` is
`createBackupPath(i)`, i.e. `<stem>_backup<i><ext>`).
-/

namespace AwLogger

/-! ## RingBuffer (ring_buffer_impl.hpp) -/

/-- `SIZE_MAX` of the 64-bit `size_t` used throughout the sources. -/
def SIZE_MAX : Nat := 2 ^ 64 - 1

/-- The `ALIGN4` macro used by the `RingBuffer` constructor.  Its definition
is not among the provided headers; the constructor's own comment on the call
site reads "align storage to 4 bytes", the conventional meaning of an
`ALIGN4(x)` macro: round the byte count `x` up to the next multiple of 4. -/
def ALIGN4 (x : Nat) : Nat := (x + 3) / 4 * 4

/-- The state of `aw_logger::RingBuffer` that its operations read and write:
the element capacity `capacity_` fixed by the constructor and the two atomic
indices.  Indices travel in `[0, mirror_capacity_)` where
`mirror_capacity_ = capacity_ << 1`.  The payload slots are not tracked
because every verified property concerns acceptance and occupancy, which the
code decides from the indices alone. -/
structure RingBuffer where
  capacity : Nat
  wIdx : Nat
  rIdx : Nat
deriving DecidableEq, Repr

/-- `RingBuffer::RingBuffer(capacity)` (ring_buffer_impl.hpp lines 22-49) for
an element type of `e_size` bytes: reject capacity 0, reject a byte count
that overflows `size_t`, align the storage to 4 bytes and derive `capacity_`
from it, then check `capacity_ << 1` (which, computed in `size_t`, wraps
modulo `2^64` and therefore can never exceed `SIZE_MAX`).  `none` stands for
the thrown `invalid_parameter`. -/
def RingBuffer.construct (capacity e_size : Nat) : Option RingBuffer :=
  if capacity = 0 then none
  else if capacity > SIZE_MAX / e_size then none
  else
    let cap := ALIGN4 (capacity * e_size) / e_size
    if (cap * 2) % 2 ^ 64 > SIZE_MAX then none
    else some ⟨cap, 0, 0⟩

/-- The occupancy computation shared by `push`, `pop`, `getSize` and the
destructor: `wIdx - rIdx`, wrapped at the mirror capacity when the write
index is behind the read index. -/
def RingBuffer.used (rb : RingBuffer) : Nat :=
  if rb.rIdx ≤ rb.wIdx then rb.wIdx - rb.rIdx
  else rb.wIdx + 2 * rb.capacity - rb.rIdx

/-- The index update of `push`/`pop`: advance by one and wrap at the mirror
capacity. -/
def RingBuffer.nextIdx (rb : RingBuffer) (idx : Nat) : Nat :=
  if idx + 1 ≥ 2 * rb.capacity then idx + 1 - 2 * rb.capacity else idx + 1

/-- `RingBuffer::push` (ring_buffer_impl.hpp lines 91-134): `false` on an
unconstructed buffer or when `used ≥ capacity_` (full buffer, the datum is
discarded); otherwise the datum is stored and the write index advances. -/
def RingBuffer.push (rb : RingBuffer) : Bool × RingBuffer :=
  if rb.capacity = 0 then (false, rb)
  else if rb.used ≥ rb.capacity then (false, rb)
  else (true, { rb with wIdx := rb.nextIdx rb.wIdx })

/-- `RingBuffer::pop` (ring_buffer_impl.hpp lines 136-171): `false` on an
unconstructed or empty buffer; otherwise the datum moves out and the read
index advances. -/
def RingBuffer.pop (rb : RingBuffer) : Bool × RingBuffer :=
  if rb.capacity = 0 then (false, rb)
  else if rb.used = 0 then (false, rb)
  else (true, { rb with rIdx := rb.nextIdx rb.rIdx })

/-- `n` consecutive `push` calls; the flag is `true` iff every call
returned `true`. -/
def RingBuffer.pushN (rb : RingBuffer) : Nat → Bool × RingBuffer
  | 0 => (true, rb)
  | n + 1 =>
    let r := rb.push
    let rest := r.2.pushN n
    (r.1 && rest.1, rest.2)

/-- `n` is a power of two, decided the way the sources do (`n & (n-1) = 0`
for nonzero `n`). -/
def isPow2 (n : Nat) : Bool := n != 0 && n &&& (n - 1) == 0

theorem push_fresh (C j : Nat) (h : j < C) :
    RingBuffer.push ⟨C, j, 0⟩ = (true, ⟨C, j + 1, 0⟩) := by
  simp only [RingBuffer.push, RingBuffer.used, RingBuffer.nextIdx]
  split_ifs with h1 h2 h3 <;> first | rfl | (exfalso; omega)

theorem pushN_fresh (C : Nat) :
    ∀ (k j : Nat), j + k ≤ C →
      RingBuffer.pushN ⟨C, j, 0⟩ k = (true, ⟨C, j + k, 0⟩) := by
  intro k
  induction k with
  | zero => intro j _; simp [RingBuffer.pushN]
  | succ n ih =>
    intro j hj
    have hlt : j < C := by omega
    simp only [RingBuffer.pushN, push_fresh C j hlt]
    have hih := ih (j + 1) (by omega)
    simp only [hih, Bool.true_and]
    have harith : j + 1 + n = j + (n + 1) := by omega
    rw [harith]

/-- **C3.**  A ring buffer constructed with capacity `C` (for any element
size that leaves the capacity unchanged by the 4-byte storage alignment, as
is the case for every element type the repository instantiates): starting
from the empty state, `C` consecutive pushes all return `true`, the
`C+1`-th push returns `false`, and after one successful pop one further push
returns `true` again. -/
theorem ring_capacity_cycle (C e_size : Nat) (rb0 : RingBuffer)
    (hc : RingBuffer.construct C e_size = some rb0) (hcap : rb0.capacity = C) :
    (rb0.pushN C).1 = true ∧
    (((rb0.pushN C).2).push).1 = false ∧
    (((((rb0.pushN C).2).push).2).pop).1 = true ∧
    (((((((rb0.pushN C).2).push).2).pop).2).push).1 = true := by
  have hC0 : C ≠ 0 := by
    intro h; rw [h] at hc; simp [RingBuffer.construct] at hc
  have hrb : rb0.wIdx = 0 ∧ rb0.rIdx = 0 := by
    simp only [RingBuffer.construct] at hc
    split at hc
    · exact absurd hc (by simp)
    · split at hc
      · exact absurd hc (by simp)
      · split at hc
        · exact absurd hc (by simp)
        · cases hc; exact ⟨rfl, rfl⟩
  obtain ⟨hw, hr⟩ := hrb
  have hC : 0 < C := Nat.pos_of_ne_zero hC0
  have hrb0 : rb0 = ⟨C, 0, 0⟩ := by
    cases rb0; simp_all
  subst hrb0
  have hfull : RingBuffer.pushN ⟨C, 0, 0⟩ C = (true, ⟨C, C, 0⟩) := by
    simpa using pushN_fresh C C 0 (by omega)
  have hpushfail : RingBuffer.push ⟨C, C, 0⟩ = (false, ⟨C, C, 0⟩) := by
    simp only [RingBuffer.push, RingBuffer.used, RingBuffer.nextIdx]
    split_ifs with h1 h2 <;> first | rfl | (exfalso; omega)
  have hpop : RingBuffer.pop ⟨C, C, 0⟩ = (true, ⟨C, C, 1⟩) := by
    simp only [RingBuffer.pop, RingBuffer.used, RingBuffer.nextIdx]
    split_ifs with h1 h2 h3 <;> first | rfl | (exfalso; omega)
  have hpush2 : (RingBuffer.push ⟨C, C, 1⟩).1 = true := by
    simp only [RingBuffer.push, RingBuffer.used, RingBuffer.nextIdx]
    split_ifs with h1 h2 h3 <;> first | rfl | (exfalso; omega)
  rw [hfull]
  exact ⟨rfl, by rw [hpushfail], by rw [hpushfail, hpop], by rw [hpushfail, hpop]; exact hpush2⟩

/-- Witness for `ring_capacity_cycle` at capacity 3 with 16-byte elements
(the size of the `std::shared_ptr<LogEvent>` elements the logger uses). -/
theorem ring_capacity_cycle_witness :
    ((RingBuffer.pushN ⟨3, 0, 0⟩ 3).1 = true ∧
     (((RingBuffer.pushN ⟨3, 0, 0⟩ 3).2).push).1 = false ∧
     (((((RingBuffer.pushN ⟨3, 0, 0⟩ 3).2).push).2).pop).1 = true ∧
     (((((((RingBuffer.pushN ⟨3, 0, 0⟩ 3).2).push).2).pop).2).push).1 = true) :=
  ring_capacity_cycle 3 16 ⟨3, 0, 0⟩ (by decide) (by decide)

/-- **C5, counterexample.**  Capacity 3 for 16-byte elements is accepted by
the constructor, yet the resulting capacity is 3 — not a power of two.  The
constructor aligns the *storage* to 4 bytes; it never rounds the capacity up
to a power of two (the header's unused `roundUpPow2` notwithstanding), and
the indices wrap at the mirror capacity `2 * capacity_` instead of being
reduced by a bit mask. -/
theorem ring_constructed_capacity_not_pow2 :
    RingBuffer.construct 3 16 = some ⟨3, 0, 0⟩ ∧ isPow2 3 = false := by decide

/-- **C5, amended.**  For every accepted request the constructed capacity is
`ALIGN4 (capacity * e_size) / e_size`; whenever the element size is a
multiple of 4 (true of every element type the repository instantiates) the
requested capacity is kept exactly — it is not rounded up to a power of two —
and the fresh indices are 0. -/
theorem ring_construct_capacity (capacity e_size : Nat) (rb : RingBuffer)
    (h : RingBuffer.construct capacity e_size = some rb) :
    rb.capacity = ALIGN4 (capacity * e_size) / e_size ∧
    (∀ k, e_size = 4 * k → rb.capacity = capacity) ∧
    rb.wIdx = 0 ∧ rb.rIdx = 0 := by
  simp only [RingBuffer.construct] at h
  split at h
  · exact absurd h (by simp)
  · rename_i hcap0
    split at h
    · exact absurd h (by simp)
    · rename_i hbig
      split at h
      · exact absurd h (by simp)
      · have hrb := Option.some.inj h
        subst hrb
        refine ⟨rfl, ?_, rfl, rfl⟩
        intro k hk
        subst hk
        rcases Nat.eq_zero_or_pos k with hk0 | hk0
        · subst hk0
          exact absurd (show capacity > SIZE_MAX / (4 * 0) by simp; omega) hbig
        · show ALIGN4 (capacity * (4 * k)) / (4 * k) = capacity
          have h4 : ALIGN4 (capacity * (4 * k)) = capacity * (4 * k) := by
            unfold ALIGN4
            have h5 : capacity * (4 * k) = 4 * (capacity * k) := by ring
            rw [h5]
            omega
          rw [h4, Nat.mul_comm capacity (4 * k)]
          exact Nat.mul_div_cancel_left capacity (by omega)

/-- Witness for `ring_construct_capacity` at requested capacity 5 with
8-byte elements. -/
theorem ring_construct_capacity_witness :
    (⟨5, 0, 0⟩ : RingBuffer).capacity = ALIGN4 (5 * 8) / 8 :=
  (ring_construct_capacity 5 8 ⟨5, 0, 0⟩ (by decide)).1

/-! ## FileAppender (file_appender_impl.hpp) -/

/-- The file system as one `FileAppender` sees it: path index 0 is the
active file `file_path_`; index `i ≥ 1` is `createBackupPath(i)`, i.e.
`<stem>_backup<i><ext>` (file_appender_impl.hpp lines 224-229).  `none`
means the path does not exist; a file's content is the byte string it
holds. -/
def FileSys : Type := Nat → Option String

/-- No file exists. -/
def FileSys.empty : FileSys := fun _ => none

/-- Create or overwrite the file at `k` with content `c`. -/
def FileSys.setFile (fs : FileSys) (k : Nat) (c : String) : FileSys :=
  fun j => if j = k then some c else fs j

/-- `std::filesystem::remove`. -/
def FileSys.removeFile (fs : FileSys) (k : Nat) : FileSys :=
  fun j => if j = k then none else fs j

/-- `std::filesystem::rename(src, dst)` under the `exists(src)` guard used
at every call site: move the content of `src` to `dst` when `src` exists,
do nothing when it does not. -/
def FileSys.renameFile (fs : FileSys) (src dst : Nat) : FileSys :=
  match fs src with
  | some c => (fs.setFile dst c).removeFile src
  | none => fs

/-- The state of one `aw_logger::FileAppender` (appender.hpp lines 185-293):
the file system it acts on, whether the `ofstream` is open, the in-memory
buffer with its reserved capacity, and the `file_size_`, `max_file_size_`,
`max_backup_num_` and `is_trunc_` members. -/
@[ext]
structure FileAppender where
  fs : FileSys
  isOpen : Bool
  buffer : String
  buffer_capacity : Nat
  file_size : Nat
  max_file_size : Nat
  max_backup_num : Nat
  is_trunc : Bool

/-- `FileAppender::open(is_trunc)` (file_appender_impl.hpp lines 80-106):
close if open, create the parent directory, open the active file —
`ofstream` creates it when missing and `std::ios::trunc` empties it — and
reset `file_size_` in truncate mode. -/
def FileAppender.openFile (fa : FileAppender) (is_trunc : Bool) : FileAppender :=
  let fs1 := if is_trunc then fa.fs.setFile 0 ""
             else match fa.fs 0 with
                  | some _ => fa.fs
                  | none => fa.fs.setFile 0 ""
  { fa with fs := fs1, isOpen := true,
            file_size := if is_trunc then 0 else fa.file_size }

/-- The backup-shift loop of `rotateFile` (file_appender_impl.hpp lines
200-206): `for (i = max_backup_num_; i > 1; i--)` rename
`_backup(i-1)` to `_backup(i)`. -/
def shiftBackups (fs : FileSys) : Nat → FileSys
  | 0 => fs
  | 1 => fs
  | i + 2 => shiftBackups (fs.renameFile (i + 1) (i + 2)) (i + 1)

/-- `FileAppender::rotateFile` (file_appender_impl.hpp lines 186-222): close
the stream; with a positive backup limit delete the oldest backup
`_backup<N>`, shift `_backup(i-1)` to `_backup(i)` for `i = N .. 2` and
rename the active file to `_backup1`; with limit 0 just delete the active
file.  Then reset `file_size_` and reopen the active file truncated. -/
def FileAppender.rotateFile (fa : FileAppender) : FileAppender :=
  let fa1 := { fa with isOpen := false }
  let fs1 :=
    if 0 < fa1.max_backup_num then
      FileSys.renameFile
        (shiftBackups (fa1.fs.removeFile fa1.max_backup_num) fa1.max_backup_num) 0 1
    else
      fa1.fs.removeFile 0
  ({ fa1 with fs := fs1, file_size := 0 }).openFile true

/-- `FileAppender::flushToBuffer` (file_appender_impl.hpp lines 163-184):
nothing to do on an empty buffer; otherwise reopen in append mode if the
stream is closed, write the buffer to the stream, add its size to
`file_size_`, clear it, and rotate when the size limit is reached. -/
def FileAppender.flushToBuffer (fa : FileAppender) : FileAppender :=
  if fa.buffer = "" then fa
  else
    let fa1 := if fa.isOpen then fa else fa.openFile false
    let fa2 := { fa1 with
                 fs := fa1.fs.setFile 0 (((fa1.fs 0).getD "") ++ fa1.buffer),
                 file_size := fa1.file_size + fa1.buffer.length,
                 buffer := "" }
    if 0 < fa2.max_file_size ∧ fa2.max_file_size ≤ fa2.file_size then
      fa2.rotateFile
    else fa2

/-- The newline normalisation at the top of `append`: make sure the rendered
message ends in `'\n'`. -/
def ensureNewline (log_msg : String) : String :=
  if log_msg = "" ∨ log_msg.back ≠ '\n' then log_msg ++ "\n" else log_msg

/-- `FileAppender::append` (file_appender_impl.hpp lines 108-142), taking
the already-rendered message `formatMsg(event)`: ensure the trailing
newline; with a zero-capacity buffer write straight to the stream, add the
byte count to `file_size_` and rotate when the limit is reached; otherwise
flush the buffer first if the message would overflow it, then append the
message to the buffer (`std::string::append` grows the capacity to at least
the new size). -/
def FileAppender.append (fa : FileAppender) (log_msg : String) : FileAppender :=
  let msg := ensureNewline log_msg
  if fa.buffer_capacity = 0 then
    let fa1 := if fa.isOpen then fa else fa.openFile false
    let fa2 := { fa1 with
                 fs := fa1.fs.setFile 0 (((fa1.fs 0).getD "") ++ msg),
                 file_size := fa1.file_size + msg.length }
    if 0 < fa2.max_file_size ∧ fa2.max_file_size ≤ fa2.file_size then
      fa2.rotateFile
    else fa2
  else
    let fa1 := if fa.buffer_capacity < fa.buffer.length + msg.length
               then fa.flushToBuffer else fa
    { fa1 with buffer := fa1.buffer ++ msg,
               buffer_capacity := max fa1.buffer_capacity (fa1.buffer.length + msg.length) }

/-- The `FileAppender` constructors (file_appender_impl.hpp lines 28-70):
reserve the buffer, take `file_size_` from the existing file when it exists
and truncation is off, then `open(is_trunc)`.  `max_file_size_` starts 0
(unbounded) and `max_backup_num_` starts 5. -/
def FileAppender.construct (fs : FileSys) (is_trunc : Bool) (buffer_capacity : Nat) :
    FileAppender :=
  let file_size := match fs 0 with
                   | some c => if is_trunc then 0 else c.length
                   | none => 0
  FileAppender.openFile
    { fs := fs, isOpen := false, buffer := "", buffer_capacity := buffer_capacity,
      file_size := file_size, max_file_size := 0, max_backup_num := 5,
      is_trunc := is_trunc }
    is_trunc

/-- `FileAppender::setMaxFileSize` (appender.hpp lines 233-236). -/
def FileAppender.setMaxFileSize (fa : FileAppender) (max_size : Nat) : FileAppender :=
  { fa with max_file_size := max_size }

/-- `FileAppender::setMaxBackupNum` (appender.hpp lines 242-245). -/
def FileAppender.setMaxBackupNum (fa : FileAppender) (max_num : Nat) : FileAppender :=
  { fa with max_backup_num := max_num }

/-- The number of bytes the active file holds: everything written to the
stream, plus whatever content the file already had when opened in append
mode. -/
def FileAppender.activeLen (fa : FileAppender) : Nat := ((fa.fs 0).getD "").length

/-- The accounting invariant `append` actually maintains: `file_size_`
equals the bytes the active file holds (what was written to the stream,
plus pre-existing content in append mode) — with no contribution from the
in-memory buffer. -/
def fileSizeInv (fa : FileAppender) : Prop := fa.file_size = fa.activeLen

theorem openFile_true_inv (fa : FileAppender) : fileSizeInv (fa.openFile true) := by
  simp [fileSizeInv, FileAppender.openFile, FileAppender.activeLen, FileSys.setFile]

theorem openFile_false_inv (fa : FileAppender) (h : fileSizeInv fa) :
    fileSizeInv (fa.openFile false) := by
  simp only [fileSizeInv, FileAppender.openFile, FileAppender.activeLen] at h ⊢
  cases hfs : fa.fs 0 with
  | none => simp [hfs, FileSys.setFile]; simpa [hfs] using h
  | some c => simp [hfs]; simpa [hfs] using h

theorem rotateFile_inv (fa : FileAppender) : fileSizeInv (fa.rotateFile) := by
  unfold FileAppender.rotateFile
  exact openFile_true_inv _

theorem flushToBuffer_inv (fa : FileAppender) (h : fileSizeInv fa) :
    fileSizeInv (fa.flushToBuffer) := by
  unfold FileAppender.flushToBuffer
  by_cases hb : fa.buffer = ""
  · simpa [hb] using h
  · simp only [hb, if_false]
    have h1 : fileSizeInv (if fa.isOpen then fa else fa.openFile false) := by
      by_cases ho : fa.isOpen
      · simpa [ho] using h
      · simpa [ho] using openFile_false_inv fa h
    set fa1 := if fa.isOpen then fa else fa.openFile false with hfa1
    split
    · exact rotateFile_inv _
    · simp only [fileSizeInv, FileAppender.activeLen, FileSys.setFile] at h1 ⊢
      simp [String.length_append, h1]

theorem inv_of_write (fb fa2 : FileAppender) (s : String) (h : fileSizeInv fb)
    (hfs : fa2.fs = fb.fs.setFile 0 (((fb.fs 0).getD "") ++ s))
    (hsize : fa2.file_size = fb.file_size + s.length) : fileSizeInv fa2 := by
  simp only [fileSizeInv, FileAppender.activeLen, FileSys.setFile, hfs, hsize] at h ⊢
  simp [String.length_append, h]

/-- **C1, amended.**  After any completed `append`, `file_size_` equals the
bytes held by the active file (the bytes actually written to the stream,
plus pre-existing content when the file was opened in append mode).  Bytes
sitting in the in-memory buffer are *not* counted: they enter `file_size_`
only when `flushToBuffer` writes them out. -/
theorem append_file_size_tracks_stream (fa : FileAppender) (log_msg : String)
    (h : fa.file_size = fa.activeLen) :
    (fa.append log_msg).file_size = (fa.append log_msg).activeLen := by
  suffices hs : fileSizeInv (fa.append log_msg) from hs
  have hinv : fileSizeInv fa := h
  simp only [FileAppender.append]
  by_cases hcap : fa.buffer_capacity = 0
  · simp only [hcap, if_true]
    by_cases ho : fa.isOpen
    · rw [if_pos ho]
      split
      · exact rotateFile_inv _
      · exact inv_of_write fa _ (ensureNewline log_msg) hinv rfl rfl
    · rw [if_neg ho]
      split
      · exact rotateFile_inv _
      · exact inv_of_write (fa.openFile false) _ (ensureNewline log_msg)
          (openFile_false_inv fa hinv) rfl rfl
  · simp only [hcap, if_false]
    have h1 : fileSizeInv
        (if fa.buffer_capacity < fa.buffer.length + (ensureNewline log_msg).length
         then fa.flushToBuffer else fa) := by
      split
      · exact flushToBuffer_inv fa hinv
      · exact hinv
    revert h1
    split <;> intro h1 <;> simpa [fileSizeInv, FileAppender.activeLen] using h1

/-- Witness for `append_file_size_tracks_stream`: a freshly truncated
appender with a 4-byte buffer. -/
theorem append_file_size_tracks_stream_witness :
    ((FileAppender.construct FileSys.empty true 4).append "hi").file_size =
      ((FileAppender.construct FileSys.empty true 4).append "hi").activeLen :=
  append_file_size_tracks_stream (FileAppender.construct FileSys.empty true 4) "hi"
    (by decide)

/-- **C1, counterexample.**  A freshly truncated file appender with buffer
capacity 10 that appends `"ab"`: the 3 bytes `"ab\n"` sit in the buffer,
nothing has been written to the stream, and `file_size_` is 0 — not the 3
that counting buffered-but-unflushed bytes would demand. -/
theorem file_size_excludes_buffered_counterexample :
    ((FileAppender.construct FileSys.empty true 10).append "ab").file_size = 0 ∧
    ((FileAppender.construct FileSys.empty true 10).append "ab").buffer = "ab\n" ∧
    ((FileAppender.construct FileSys.empty true 10).append "ab").activeLen = 0 ∧
    ¬ (((FileAppender.construct FileSys.empty true 10).append "ab").file_size =
        ((FileAppender.construct FileSys.empty true 10).append "ab").activeLen +
        ((FileAppender.construct FileSys.empty true 10).append "ab").buffer.length) := by
  decide

/-! ### Rotation (C6)

Pointwise helper lemmas about the file-system operations, the effect of the
backup-shift loop, and the end-to-end characterisation of repeated
write-and-rotate rounds. -/

theorem renameFile_src (fs : FileSys) (src dst : Nat)
    (c : String) (hs : fs src = some c) : fs.renameFile src dst src = none := by
  simp [FileSys.renameFile, FileSys.setFile, FileSys.removeFile, hs]

theorem renameFile_dst (fs : FileSys) (src dst : Nat) (hne : src ≠ dst)
    (c : String) (hs : fs src = some c) : fs.renameFile src dst dst = some c := by
  have hne2 : dst ≠ src := fun h => hne h.symm
  simp [FileSys.renameFile, FileSys.setFile, FileSys.removeFile, hs, hne2]

theorem renameFile_other (fs : FileSys) (src dst k : Nat)
    (hk1 : k ≠ src) (hk2 : k ≠ dst) : fs.renameFile src dst k = fs k := by
  unfold FileSys.renameFile
  cases fs src with
  | none => rfl
  | some c => simp [FileSys.setFile, FileSys.removeFile, hk1, hk2]

theorem renameFile_noSrc (fs : FileSys) (src dst : Nat) (hs : fs src = none) :
    fs.renameFile src dst = fs := by
  simp [FileSys.renameFile, hs]

theorem removeFile_self (fs : FileSys) (k : Nat) : fs.removeFile k k = none := by
  simp [FileSys.removeFile]

theorem removeFile_other (fs : FileSys) (k j : Nat) (h : j ≠ k) :
    fs.removeFile k j = fs j := by
  simp [FileSys.removeFile, h]

theorem setFile_self (fs : FileSys) (k : Nat) (c : String) :
    fs.setFile k c k = some c := by
  simp [FileSys.setFile]

theorem setFile_other (fs : FileSys) (k : Nat) (c : String) (j : Nat) (h : j ≠ k) :
    fs.setFile k c j = fs j := by
  simp [FileSys.setFile, h]

/-- The effect of the backup-shift loop on every path: after
`for (i = m; i > 1; i--) rename(backup(i-1), backup(i))`, path `k` with
`2 ≤ k ≤ m` holds what `k-1` held, `_backup1` is gone (for `m ≥ 2`), and
every other path is untouched.  The hypothesis states that the backups the
loop walks over form a downward-closed prefix (a missing backup has no
successor), which every reachable rotation state satisfies. -/
theorem shiftBackups_apply (m : Nat) :
    ∀ (fs : FileSys),
      (∀ j, 1 ≤ j → j + 1 ≤ m → fs j = none → fs (j + 1) = none) →
      ∀ k, shiftBackups fs m k =
        if 2 ≤ k ∧ k ≤ m then fs (k - 1)
        else if k = 1 ∧ 2 ≤ m then none
        else fs k := by
  induction m using Nat.strong_induction_on with
  | _ m ih =>
    match m with
    | 0 =>
      intro fs _ k
      rw [shiftBackups, if_neg (by omega), if_neg (by omega)]
    | 1 =>
      intro fs _ k
      rw [shiftBackups, if_neg (by omega), if_neg (by omega)]
    | (i + 2) =>
      intro fs hpre k
      rw [shiftBackups]
      have hpre2 : ∀ j, 1 ≤ j → j + 1 ≤ i + 1 →
          fs.renameFile (i + 1) (i + 2) j = none →
          fs.renameFile (i + 1) (i + 2) (j + 1) = none := by
        intro j hj1 hj2 hj3
        rcases Nat.lt_or_ge (j + 1) (i + 1) with hlt | hge
        · rw [renameFile_other fs _ _ j (by omega) (by omega)] at hj3
          rw [renameFile_other fs _ _ (j + 1) (by omega) (by omega)]
          exact hpre j hj1 (by omega) hj3
        · have hj : j = i := by omega
          subst hj
          cases hfs : fs (j + 1) with
          | some c =>
            rw [renameFile_src fs _ _ c hfs]
          | none =>
            rw [renameFile_noSrc fs _ _ hfs]
            exact hfs
      have ihs := ih (i + 1) (by omega) (fs.renameFile (i + 1) (i + 2)) hpre2 k
      rw [ihs]
      rcases Nat.lt_or_ge k 2 with hk2 | hk2
      · -- k = 0 or k = 1
        rcases Nat.lt_or_ge k 1 with hk1 | hk1
        · -- k = 0
          have hk : k = 0 := by omega
          subst hk
          rw [if_neg (by omega), if_neg (by omega), if_neg (by omega), if_neg (by omega),
              renameFile_other fs _ _ 0 (by omega) (by omega)]
        · -- k = 1
          have hk : k = 1 := by omega
          subst hk
          rcases Nat.lt_or_ge i 1 with hi | hi
          · -- i = 0 : the inner loop did nothing, but rename 1 → 2 ran
            have hii : i = 0 := by omega
            subst hii
            rw [if_neg (by omega), if_neg (by omega), if_neg (by omega),
                if_pos ⟨rfl, by omega⟩]
            cases hfs : fs 1 with
            | some c => exact renameFile_src fs 1 2 c hfs
            | none => rw [renameFile_noSrc fs 1 2 hfs]; exact hfs
          · rw [if_neg (by omega), if_pos ⟨rfl, by omega⟩, if_neg (by omega),
                if_pos ⟨rfl, by omega⟩]
      · rcases Nat.lt_or_ge (i + 2) k with hgt | hle
        · -- k > i + 2 : untouched
          rw [if_neg (by omega), if_neg (by omega), if_neg (by omega), if_neg (by omega),
              renameFile_other fs _ _ k (by omega) (by omega)]
        · rcases Nat.lt_or_ge k (i + 2) with hlt | hge2
          · -- 2 ≤ k ≤ i + 1
            rw [if_pos ⟨hk2, by omega⟩, if_pos ⟨hk2, by omega⟩,
                renameFile_other fs _ _ (k - 1) (by omega) (by omega)]
          · -- k = i + 2
            have hk : k = i + 2 := by omega
            subst hk
            rw [if_neg (by omega), if_neg (by omega), if_pos ⟨by omega, by omega⟩]
            have h21 : i + 2 - 1 = i + 1 := by omega
            rw [h21]
            cases hfs : fs (i + 1) with
            | some c =>
              rw [renameFile_dst fs _ _ (by omega) c hfs]
            | none =>
              rw [renameFile_noSrc fs _ _ hfs]
              exact hpre (i + 1) (by omega) (by omega) hfs

/-- The effect of one `rotateFile` with a positive backup limit, on a state
whose backups form a downward-closed prefix: `_backup1` receives the active
content, `_backup(k)` receives `_backup(k-1)` up to the limit, paths beyond
the limit are untouched, the active file is recreated empty, `file_size_`
resets, and the buffer and configuration survive unchanged. -/
theorem rotateFile_backups (fa : FileAppender)
    (hN : 0 < fa.max_backup_num)
    (hpre : ∀ j, 1 ≤ j → fa.fs j = none → fa.fs (j + 1) = none) :
    (fa.rotateFile).fs 0 = some "" ∧
    (fa.rotateFile).fs 1 = fa.fs 0 ∧
    (∀ k, 2 ≤ k → k ≤ fa.max_backup_num → (fa.rotateFile).fs k = fa.fs (k - 1)) ∧
    (∀ k, fa.max_backup_num < k → (fa.rotateFile).fs k = fa.fs k) ∧
    (fa.rotateFile).file_size = 0 ∧
    (fa.rotateFile).isOpen = true ∧
    (fa.rotateFile).buffer = fa.buffer ∧
    (fa.rotateFile).buffer_capacity = fa.buffer_capacity ∧
    (fa.rotateFile).max_file_size = fa.max_file_size ∧
    (fa.rotateFile).max_backup_num = fa.max_backup_num ∧
    (fa.rotateFile).is_trunc = fa.is_trunc := by
  have hpre' : ∀ j, 1 ≤ j → j + 1 ≤ fa.max_backup_num →
      fa.fs.removeFile fa.max_backup_num j = none →
      fa.fs.removeFile fa.max_backup_num (j + 1) = none := by
    intro j h1 h2 h3
    rcases eq_or_ne (j + 1) fa.max_backup_num with he | hne
    · rw [he]
      exact removeFile_self fa.fs fa.max_backup_num
    · rw [removeFile_other fa.fs _ _ hne]
      rw [removeFile_other fa.fs _ _ (by omega)] at h3
      exact hpre j h1 h3
  have hsh := shiftBackups_apply fa.max_backup_num
    (fa.fs.removeFile fa.max_backup_num) hpre'
  have hsh0 : shiftBackups (fa.fs.removeFile fa.max_backup_num) fa.max_backup_num 0
      = fa.fs 0 := by
    rw [hsh 0, if_neg (by omega), if_neg (by omega),
        removeFile_other fa.fs _ _ (by omega)]
  have hfs1one : FileSys.renameFile
      (shiftBackups (fa.fs.removeFile fa.max_backup_num) fa.max_backup_num) 0 1 1
      = fa.fs 0 := by
    cases hfs0 : fa.fs 0 with
    | some c =>
      rw [renameFile_dst _ 0 1 (by omega) c (hsh0.trans hfs0)]
    | none =>
      rw [renameFile_noSrc _ 0 1 (hsh0.trans hfs0), hsh 1, if_neg (by omega)]
      rcases Nat.lt_or_ge fa.max_backup_num 2 with h2 | h2
      · have h1 : fa.max_backup_num = 1 := by omega
        rw [if_neg (by omega), h1]
        exact removeFile_self fa.fs 1
      · rw [if_pos ⟨rfl, h2⟩]
  have hfs1mid : ∀ k, 2 ≤ k → k ≤ fa.max_backup_num → FileSys.renameFile
      (shiftBackups (fa.fs.removeFile fa.max_backup_num) fa.max_backup_num) 0 1 k
      = fa.fs (k - 1) := by
    intro k hk2 hkN
    rw [renameFile_other _ 0 1 k (by omega) (by omega), hsh k, if_pos ⟨hk2, hkN⟩,
        removeFile_other fa.fs _ _ (by omega)]
  have hfs1high : ∀ k, fa.max_backup_num < k → FileSys.renameFile
      (shiftBackups (fa.fs.removeFile fa.max_backup_num) fa.max_backup_num) 0 1 k
      = fa.fs k := by
    intro k hk
    rw [renameFile_other _ 0 1 k (by omega) (by omega), hsh k, if_neg (by omega),
        if_neg (by omega), removeFile_other fa.fs _ _ (by omega)]
  simp only [FileAppender.rotateFile, FileAppender.openFile, if_true]
  rw [if_pos hN]
  refine ⟨setFile_self _ 0 "", ?_, ?_, ?_, ?_, ?_, ?_, ?_, ?_, ?_, ?_⟩
  · rw [setFile_other _ 0 "" 1 (by omega)]
    exact hfs1one
  · intro k hk2 hkN
    rw [setFile_other _ 0 "" k (by omega)]
    exact hfs1mid k hk2 hkN
  · intro k hk
    rw [setFile_other _ 0 "" k (by omega)]
    exact hfs1high k hk
  all_goals trivial

/-- Every message `append` writes ends in the forced newline, so it has at
least one byte. -/
theorem ensureNewline_pos (m : String) : 0 < (ensureNewline m).length := by
  unfold ensureNewline
  split
  · have hnl : ("\n" : String).length = 1 := rfl
    rw [String.length_append, hnl]
    omega
  · rename_i h
    push_neg at h
    obtain ⟨h1, _⟩ := h
    cases m with
    | mk data =>
      cases data with
      | nil => exact absurd rfl h1
      | cons c cs => simp [String.length]

/-- The file system after some write-and-rotate rounds: the active file
holds `a`, `_backup(i+1)` holds `hist[i]` — `hist` lists the rotated
contents, most recent first — and no other path exists. -/
def histBackupFs (a : String) (hist : List String) : FileSys :=
  fun j => if j = 0 then some a else hist.get? (j - 1)

theorem histBackupFs_zero (a : String) (hist : List String) :
    histBackupFs a hist 0 = some a := by
  simp [histBackupFs]

theorem histBackupFs_pos (a : String) (hist : List String) (k : Nat) (hk : 1 ≤ k) :
    histBackupFs a hist k = hist.get? (k - 1) := by
  unfold histBackupFs
  rw [if_neg (by omega)]

/-- The appender state between rounds of the rotation scenario: open,
unbuffered, `max_file_size = 1`, backup limit `N`, empty active file,
backup history `hist`. -/
def rotState (N : Nat) (hist : List String) : FileAppender :=
  { fs := histBackupFs "" hist, isOpen := true, buffer := "",
    buffer_capacity := 0, file_size := 0, max_file_size := 1,
    max_backup_num := N, is_trunc := true }

/-- The initial appender of the rotation scenario: constructed on an empty
file system with truncation and no buffering, then configured with
`max_file_size = 1` — so every append triggers exactly one rotation — and
backup limit `N`. -/
def rotationSetup (N : Nat) : FileAppender :=
  ((FileAppender.construct FileSys.empty true 0).setMaxFileSize 1).setMaxBackupNum N

theorem rotationSetup_eq (N : Nat) : rotationSetup N = rotState N [] := by
  have hfs : FileSys.setFile FileSys.empty 0 "" = histBackupFs "" [] := by
    funext j
    by_cases hj : j = 0 <;>
      simp [FileSys.empty, FileSys.setFile, histBackupFs, hj]
  unfold rotationSetup rotState FileAppender.construct FileAppender.setMaxFileSize
    FileAppender.setMaxBackupNum FileAppender.openFile
  simp only [if_true, FileSys.empty]
  rw [← hfs]

/-- One round of the rotation scenario: appending any message to the
unbuffered size-1-limited appender writes the newline-terminated message and
immediately rotates, pushing it to `_backup1` and shifting the older
history, truncated to the backup limit. -/
theorem append_rotState (N : Nat) (hN : 0 < N) (hist : List String)
    (hlen : hist.length ≤ N) (m : String) :
    (rotState N hist).append m = rotState N ((ensureNewline m :: hist).take N) := by
  have hmsg := ensureNewline_pos m
  have hfs2 : FileSys.setFile (histBackupFs "" hist) 0 (ensureNewline m) =
      histBackupFs (ensureNewline m) hist := by
    funext j
    by_cases hj : j = 0 <;> simp [FileSys.setFile, histBackupFs, hj]
  simp only [FileAppender.append, rotState, reduceIte, histBackupFs_zero,
    Option.getD_some, String.empty_append, hfs2, Nat.zero_add]
  split_ifs with h3
  · -- the write reached the limit and rotation ran
    set faMid : FileAppender :=
      { fs := histBackupFs (ensureNewline m) hist, isOpen := true, buffer := "",
        buffer_capacity := 0, file_size := (ensureNewline m).length,
        max_file_size := 1, max_backup_num := N, is_trunc := true } with hfaMid
    have hmid := rotateFile_backups faMid
      (by simpa [hfaMid] using hN)
      (by
        intro j hj hnone
        simp only [hfaMid, histBackupFs_pos _ _ j hj] at hnone
        simp only [hfaMid, histBackupFs_pos _ _ (j + 1) (by omega)]
        have hlenj := List.get?_eq_none.1 hnone
        exact List.get?_eq_none.2 (by omega))
    obtain ⟨hz, ho, hm, hh, hsize, hopen, hbuf, hcap, hmax, hback, htr⟩ := hmid
    have hfsM : faMid.fs = histBackupFs (ensureNewline m) hist := rfl
    have hbackM : faMid.max_backup_num = N := rfl
    rw [hfsM] at ho hm hh
    rw [hbackM] at hm hh
    refine FileAppender.ext ?_ ?_ ?_ ?_ ?_ ?_ ?_ ?_
    · -- the file system, path by path
      funext k
      show (faMid.rotateFile).fs k = histBackupFs "" ((ensureNewline m :: hist).take N) k
      rcases Nat.eq_zero_or_pos k with hk0 | hk1
      · subst hk0
        rw [hz, histBackupFs_zero]
      · rw [histBackupFs_pos _ _ k hk1]
        rcases Nat.lt_or_ge k 2 with hk2 | hk2
        · have hk : k = 1 := by omega
          subst hk
          rw [ho, histBackupFs_zero]
          rw [List.get?_take (by omega : (0 : Nat) < N)]
          rfl
        · rcases Nat.lt_or_ge N k with hgt | hle
          · rw [hh k hgt]
            rw [histBackupFs_pos _ _ k (by omega)]
            have hl1 : hist.length ≤ k - 1 := by omega
            have hl2 : ((ensureNewline m :: hist).take N).length ≤ k - 1 := by
              rw [List.length_take]
              omega
            rw [List.get?_eq_none.2 hl1, List.get?_eq_none.2 hl2]
          · rw [hm k hk2 hle]
            rw [histBackupFs_pos _ _ (k - 1) (by omega)]
            rw [List.get?_take (by omega : k - 1 < N)]
            have hcons : (ensureNewline m :: hist).get? (k - 1) = hist.get? (k - 2) := by
              have hk' : k - 1 = (k - 2) + 1 := by omega
              rw [hk']
              rfl
            rw [hcons]
            have hk1' : k - 1 - 1 = k - 2 := by omega
            rw [hk1']
    · exact hopen
    · exact hbuf
    · exact hcap
    · exact hsize
    · exact hmax
    · exact hback
    · exact htr
  · -- rotation cannot be skipped: the 1-byte limit is always reached
    exfalso
    exact h3 ⟨by omega, by omega⟩

theorem foldl_append_rotState (N : Nat) (hN : 0 < N) :
    ∀ (ms : List String) (hist : List String), hist.length ≤ N →
      List.foldl FileAppender.append (rotState N hist) ms =
        rotState N (List.foldl (fun h m => (ensureNewline m :: h).take N) hist ms) := by
  intro ms
  induction ms with
  | nil => intro hist _; rfl
  | cons m ms ih =>
    intro hist hlen
    simp only [List.foldl]
    rw [append_rotState N hN hist hlen m]
    exact ih _ (by rw [List.length_take]; omega)

theorem take_append_take (xs ys : List String) (N : Nat) :
    (xs ++ ys.take N).take N = (xs ++ ys).take N := by
  rw [List.take_append_eq_append_take, List.take_append_eq_append_take, List.take_take,
      Nat.min_eq_left (Nat.sub_le N xs.length)]

/-- The history fold keeps exactly the `N` newest newline-terminated
messages, most recent first. -/
theorem histFold_eq (N : Nat) :
    ∀ (ms hist : List String), hist.length ≤ N →
      List.foldl (fun h m => (ensureNewline m :: h).take N) hist ms =
        ((ms.map ensureNewline).reverse ++ hist).take N := by
  intro ms
  induction ms with
  | nil =>
    intro hist hlen
    simp [List.take_of_length_le hlen]
  | cons m ms ih =>
    intro hist hlen
    simp only [List.foldl, List.map, List.reverse_cons]
    rw [ih _ (by rw [List.length_take]; omega), take_append_take]
    simp [List.append_assoc]

/-- **C6.**  Three parts.  (1) Each rotation, for any state and any
size limit, shifts `_backup1` ← active, `_backup(k)` ← `_backup(k-1)` up to
the limit `N`, deletes what was in `_backupN`, touches nothing beyond `N`,
and recreates the active file empty.  (2) The end-to-end scenario: an
unbuffered appender on a fresh file system with `max_file_size = 1` (every
append writes at least one byte, so every append triggers exactly one
rotation) and backup limit `N > 0`, after at least `N + 2` appends of
messages `ms`, leaves on disk exactly the truncated-empty active file and
`_backup1 .. _backupN`, where `_backup(i)` holds the `i`-th most recent
message (newline terminated) — `_backup1` is the most recently rotated
content, everything older than `N` rotations is gone, and `_backup(N+1)`
and beyond do not exist.  (3) When `max_backup_count` is 0, rotation
instead deletes the current file (recreating it empty on reopen) and
touches no backup path. -/
theorem rotation_backup_scheme :
    (∀ fa : FileAppender, 0 < fa.max_backup_num →
      (∀ j, 1 ≤ j → fa.fs j = none → fa.fs (j + 1) = none) →
      (fa.rotateFile).fs 0 = some "" ∧
      (fa.rotateFile).fs 1 = fa.fs 0 ∧
      (∀ k, 2 ≤ k → k ≤ fa.max_backup_num → (fa.rotateFile).fs k = fa.fs (k - 1)) ∧
      (∀ k, fa.max_backup_num < k → (fa.rotateFile).fs k = fa.fs k) ∧
      (fa.rotateFile).file_size = 0) ∧
    (∀ (N : Nat) (ms : List String), 0 < N → N + 2 ≤ ms.length →
      (List.foldl FileAppender.append (rotationSetup N) ms).fs 0 = some "" ∧
      (∀ i, 1 ≤ i → i ≤ N →
        (List.foldl FileAppender.append (rotationSetup N) ms).fs i =
          (ms.reverse.map ensureNewline).get? (i - 1) ∧
        (List.foldl FileAppender.append (rotationSetup N) ms).fs i ≠ none) ∧
      (∀ k, N < k → (List.foldl FileAppender.append (rotationSetup N) ms).fs k = none)) ∧
    (∀ fa : FileAppender, fa.max_backup_num = 0 →
      (fa.rotateFile).fs 0 = some "" ∧
      (∀ k, 1 ≤ k → (fa.rotateFile).fs k = fa.fs k) ∧
      (fa.rotateFile).file_size = 0) := by
  refine ⟨?_, ?_, ?_⟩
  · intro fa hN hpre
    obtain ⟨hz, ho, hm, hh, hsize, _⟩ := rotateFile_backups fa hN hpre
    exact ⟨hz, ho, hm, hh, hsize⟩
  · intro N ms hN hlen
    rw [rotationSetup_eq, foldl_append_rotState N hN ms [] (by simp),
        histFold_eq N ms [] (by simp)]
    simp only [List.append_nil, rotState]
    refine ⟨histBackupFs_zero _ _, ?_, ?_⟩
    · intro i h1 h2
      rw [histBackupFs_pos _ _ i h1,
          List.get?_take (by omega : i - 1 < N)]
      constructor
      · rw [← List.map_reverse]
      · intro hnone
        have hlen2 := List.get?_eq_none.1 hnone
        rw [List.length_reverse, List.length_map] at hlen2
        omega
    · intro k hk
      rw [histBackupFs_pos _ _ k (by omega)]
      refine List.get?_eq_none.2 ?_
      rw [List.length_take]
      omega
  · intro fa h0
    simp only [FileAppender.rotateFile, FileAppender.openFile, if_true]
    rw [if_neg (by omega)]
    refine ⟨setFile_self _ 0 "", ?_, ?_⟩
    · intro k hk
      rw [setFile_other _ 0 "" k (by omega), removeFile_other fa.fs 0 k (by omega)]
    · trivial

/-- Witness for `rotation_backup_scheme`: limit 1, three appends —
`_backup1` holds the newline-terminated last message. -/
theorem rotation_backup_scheme_witness :
    (List.foldl FileAppender.append (rotationSetup 1) ["a", "b", "c"]).fs 1 =
      some "c\n" := by
  have h := ((rotation_backup_scheme.2.1 1 ["a", "b", "c"] (by decide)
    (by decide)).2.1 1 (by decide) (by decide)).1
  rw [h]
  decide

/-! ## Logger (logger_impl.hpp) -/

/-- Modelled from the spec: `LogLevel::level` is declared in `fmt_base.hpp`,
which is not among the provided sources.  Section 3 of the spec defines it as
the ordered enumeration {Debug, Info, Notice, Warn, Error, Fatal} with total
order by declaration position; the same six names appear in the repository's
`log_macro.hpp` (`aw_logger::LogLevel::level::DEBUG` ... `FATAL`). -/
inductive LogLevel where
  | DEBUG | INFO | NOTICE | WARN | ERROR | FATAL
deriving DecidableEq, Repr

/-- The underlying integer of a level; the C++ `<` on the enum compares
these values. -/
def LogLevel.toNat : LogLevel → Nat
  | .DEBUG => 0
  | .INFO => 1
  | .NOTICE => 2
  | .WARN => 3
  | .ERROR => 4
  | .FATAL => 5

/-- The comparison `event->getLogLevel() < threshold_level_` performed by
`Logger::submit`. -/
def LogLevel.lt (a b : LogLevel) : Bool := Nat.blt a.toNat b.toNat

/-- The part of a `LogEvent` that `Logger::submit` inspects: the level; the
message stands in for the rest of the immutable payload. -/
structure LogEvent where
  level : LogLevel
  msg : String
deriving DecidableEq, Repr

/-- The state of `aw_logger::Logger` read by `submit`: the threshold level,
the appender list, the optional root logger and the ring-buffer indices.
Appenders and the root logger are `shared_ptr`s compared by address, so both
are modelled by a `Nat` object identity. -/
structure Logger where
  thresholdLevel : LogLevel
  appenders : List Nat
  rootLogger : Option Nat
  rb : RingBuffer
deriving DecidableEq, Repr

/-- The observable outcome of one `Logger::submit` call: an early return on
the null/threshold gate, a ring push (with the push result; a `false` push
is the documented silent drop), exactly one delegation
`curr_root_logger->submit(event)` carrying the root identity and the
forwarded event, or the thrown `invalid_parameter` ("root logger is
nullptr!"). -/
inductive SubmitResult where
  | filtered
  | pushed (ok : Bool)
  | delegated (root : Nat) (event : LogEvent)
  | invalidParameter
deriving DecidableEq, Repr

/-- `Logger::submit` (logger_impl.hpp lines 39-82).  The argument is the
possibly-null `shared_ptr<LogEvent>`.  The condition-variable notification
and the idempotent `start()` are omitted: they have no effect on the state
modelled here. -/
def Logger.submit (lg : Logger) (event : Option LogEvent) : SubmitResult × Logger :=
  match event with
  | none => (.filtered, lg)
  | some ev =>
    if LogLevel.lt ev.level lg.thresholdLevel then (.filtered, lg)
    else if lg.appenders.isEmpty then
      match lg.rootLogger with
      | some root => (.delegated root ev, lg)
      | none => (.invalidParameter, lg)
    else
      let r := lg.rb.push
      (.pushed r.1, { lg with rb := r.2 })

/-- The error taxonomy entry thrown by the `Logger` mutators:
`aw_logger::invalid_parameter`. -/
inductive AwError where
  | invalidParameter
deriving DecidableEq, Repr

/-- `Logger::setAppender` (logger_impl.hpp lines 97-116), acting on the
appender list: a null appender throws `invalid_parameter`; an appender
already present (compared by `shared_ptr` identity, `ex_app == appender`)
throws `invalid_parameter`; otherwise the appender is appended at the back
with `emplace_back`.  A thrown error leaves the list unchanged, which the
`Except` result models by carrying no list. -/
def Logger.setAppender (apps : List Nat) (appender : Option Nat) :
    Except AwError (List Nat) :=
  match appender with
  | none => .error .invalidParameter
  | some a => if a ∈ apps then .error .invalidParameter else .ok (apps ++ [a])

/-- **C8.**  A null event, or an event whose level is strictly below the
logger's threshold, makes `submit` return at once: the result is the early
return, the logger — its ring buffer included — is unchanged, so nothing is
enqueued and no sink can ever receive the event. -/
theorem submit_filters_below_threshold (lg : Logger) (event : Option LogEvent)
    (h : event = none ∨
      ∃ ev, event = some ev ∧ LogLevel.lt ev.level lg.thresholdLevel = true) :
    lg.submit event = (.filtered, lg) := by
  rcases h with h | ⟨ev, hev, hlt⟩
  · subst h; rfl
  · subst hev
    simp [Logger.submit, hlt]

/-- Witness for `submit_filters_below_threshold`: a DEBUG event against a
WARN threshold is dropped without touching the logger. -/
theorem submit_filters_below_threshold_witness :
    Logger.submit ⟨.WARN, [7], none, ⟨4, 0, 0⟩⟩ (some ⟨.DEBUG, "x"⟩) =
      (.filtered, ⟨.WARN, [7], none, ⟨4, 0, 0⟩⟩) :=
  submit_filters_below_threshold _ _ (Or.inr ⟨⟨.DEBUG, "x"⟩, rfl, by decide⟩)

/-- **C7.**  For an event that passes the null and threshold gates, a logger
with an empty appender list either performs exactly one delegation
`root->submit(event)` with the very same event (when a root logger is
installed) or throws `invalid_parameter` (when none is); in both cases its
own state — the ring buffer in particular — is untouched, so nothing is
enqueued locally. -/
theorem submit_delegates_or_fails (lg : Logger) (ev : LogEvent)
    (happ : lg.appenders = [])
    (hlvl : LogLevel.lt ev.level lg.thresholdLevel = false) :
    (∀ root, lg.rootLogger = some root →
      lg.submit (some ev) = (.delegated root ev, lg)) ∧
    (lg.rootLogger = none → lg.submit (some ev) = (.invalidParameter, lg)) := by
  constructor
  · intro root hroot
    simp [Logger.submit, hlvl, happ, hroot]
  · intro hroot
    simp [Logger.submit, hlvl, happ, hroot]

/-- Witness for `submit_delegates_or_fails`: a sink-less logger with root
identity 42 forwards an INFO event to it exactly once, unchanged. -/
theorem submit_delegates_or_fails_witness :
    Logger.submit ⟨.DEBUG, [], some 42, ⟨4, 0, 0⟩⟩ (some ⟨.INFO, "hello"⟩) =
      (.delegated 42 ⟨.INFO, "hello"⟩, ⟨.DEBUG, [], some 42, ⟨4, 0, 0⟩⟩) :=
  (submit_delegates_or_fails ⟨.DEBUG, [], some 42, ⟨4, 0, 0⟩⟩ ⟨.INFO, "hello"⟩
    rfl (by decide)).1 42 rfl

/-- **C10.**  `setAppender` fails with `invalid_parameter` — leaving the
appender list unchanged — exactly when the argument is null or the same
appender object is already registered; otherwise the appender is appended at
the end of the list. -/
theorem setAppender_spec (apps : List Nat) (appender : Option Nat) :
    (appender = none → Logger.setAppender apps appender = .error .invalidParameter) ∧
    (∀ a, appender = some a → a ∈ apps →
      Logger.setAppender apps appender = .error .invalidParameter) ∧
    (∀ a, appender = some a → a ∉ apps →
      Logger.setAppender apps appender = .ok (apps ++ [a])) := by
  refine ⟨fun h => by subst h; rfl, fun a h hmem => ?_, fun a h hmem => ?_⟩
  · subst h; simp [Logger.setAppender, hmem]
  · subst h; simp [Logger.setAppender, hmem]

/-- Witness for `setAppender_spec`: adding the fresh appender 7 to the list
`[2, 5]` appends it at the end. -/
theorem setAppender_spec_witness :
    Logger.setAppender [2, 5] (some 7) = .ok [2, 5, 7] :=
  (setAppender_spec [2, 5] (some 7)).2.2 7 rfl (by decide)

/-! ## ComponentFactory (formatter.hpp, formatter_impl.hpp)

The JSON dialect: `loadSettingComponents` + `registerComponents` with the
`default_json_` fallback, and the pattern dialect: `parsePattern`. -/

/-- A JSON value as `nlohmann::json` holds it, restricted to what the
settings schema uses. -/
inductive Json where
  | null
  | bool (b : Bool)
  | str (s : String)
  | num (n : Int)
  | arr (elems : List Json)
  | obj (fields : List (String × Json))

mutual
/-- Structural equality of JSON values (`nlohmann::json::operator==`). -/
def Json.beq : Json → Json → Bool
  | .null, .null => true
  | .bool a, .bool b => a == b
  | .str a, .str b => a == b
  | .num a, .num b => a == b
  | .arr a, .arr b => Json.beqList a b
  | .obj a, .obj b => Json.beqFields a b
  | _, _ => false

/-- Elementwise equality of JSON arrays. -/
def Json.beqList : List Json → List Json → Bool
  | [], [] => true
  | a :: as, b :: bs => Json.beq a b && Json.beqList as bs
  | _, _ => false

/-- Memberwise equality of JSON objects. -/
def Json.beqFields : List (String × Json) → List (String × Json) → Bool
  | [], [] => true
  | a :: as, b :: bs => a.1 == b.1 && Json.beq a.2 b.2 && Json.beqFields as bs
  | _, _ => false
end

instance : BEq Json := ⟨Json.beq⟩

/-- Object member lookup.  `nlohmann::json::contains` is `false` and the
`const` member access finds nothing unless the value is an object holding
the key. -/
def Json.getKey : Json → String → Option Json
  | .obj fields, key => (fields.find? (fun f => f.1 == key)).map (fun f => f.2)
  | _, _ => none

/-- `setting_json_.contains("components")`. -/
def Json.containsKey (j : Json) (key : String) : Bool := (j.getKey key).isSome

mutual
/-- `nlohmann::json::dump` of a value, used by the `color` registration
branch.  Only the fact that it is some fixed serialisation matters to the
verified properties (no claim compares its text); the indentation and key
ordering of `dump(4)` are not reproduced. -/
def Json.dump : Json → String
  | .null => "null"
  | .bool b => if b then "true" else "false"
  | .str s => "\"" ++ s ++ "\""
  | .num n => toString n
  | .arr elems => "[" ++ Json.dumpList elems ++ "]"
  | .obj fields => "\x7b" ++ Json.dumpFields fields ++ "\x7d"

/-- Serialise the elements of a JSON array. -/
def Json.dumpList : List Json → String
  | [] => ""
  | [j] => Json.dump j
  | j :: rest => Json.dump j ++ ", " ++ Json.dumpList rest

/-- Serialise the members of a JSON object. -/
def Json.dumpFields : List (String × Json) → String
  | [] => ""
  | [f] => "\"" ++ f.1 ++ "\": " ++ Json.dump f.2
  | f :: rest => "\"" ++ f.1 ++ "\": " ++ Json.dump f.2 ++ ", " ++ Json.dumpFields rest
end

/-- `ComponentFactory::default_json_` (formatter.hpp lines 75-91).  The
outer brace initialiser `{ "log_event", { ...six components... } }` has a
bare string as its first element, so nlohmann's initialiser-list rules build
a two-element JSON **array** `["log_event", [ ...six component objects... ]]`
— not an object, and in particular not one with a `components` key. -/
def default_json_ : Json :=
  .arr [ .str "log_event",
         .arr [ .obj [("type", .str "timestamp"), ("enabled", .bool true)],
                .obj [("type", .str "level"), ("enabled", .bool true)],
                .obj [("type", .str "tid"), ("enabled", .bool true)],
                .obj [("type", .str "loc"),
                      ("format", .str "[{file_name}:{function_name}:{line}]"),
                      ("enabled", .bool true)],
                .obj [("type", .str "msg"), ("enabled", .bool true)],
                .obj [("type", .str "color"),
                      ("level_colors",
                       .obj [("debug", .str "white"), ("info", .str "cyan"),
                             ("notice", .str "blue"), ("warn", .str "yellow"),
                             ("error", .str "red"), ("fatal", .str "magenta")]),
                      ("enabled", .bool true)] ] ]

/-- `ComponentFactory::loadSettingComponents` (formatter_impl.hpp lines
41-56), with the parsed settings document standing for the file's content
(opening and parsing the file is I/O): the document becomes `setting_json_`
unless it has no `components` key, in which case `default_json_` replaces
it. -/
def loadSettingComponents (doc : Json) : Json :=
  if doc.containsKey "components" then doc else default_json_

/-- One iteration of the registration loop of
`ComponentFactory::registerComponents` (formatter_impl.hpp lines 58-90):
a component with `enabled == true` pushes its `{type, data}` pair; the
`loc` data is `component.value("format", "")`, the `color` data the dump of
`component["level_colors"]`; unknown types push nothing. -/
def registerComponent (component : Json) : List (String × String) :=
  if component.getKey "enabled" == some (Json.bool true) then
    let type := component.getKey "type"
    if type == some (Json.str "color") then
      [("color", ((component.getKey "level_colors").getD .null).dump)]
    else if type == some (Json.str "timestamp") then [("timestamp", "")]
    else if type == some (Json.str "level") then [("level", "")]
    else if type == some (Json.str "tid") then [("tid", "")]
    else if type == some (Json.str "loc") then
      [("loc", match component.getKey "format" with
               | some (.str s) => s
               | _ => "")]
    else if type == some (Json.str "msg") then [("msg", "")]
    else []
  else []

/-- `ComponentFactory::registerComponents` (formatter_impl.hpp lines 58-90):
iterate `json["components"]`.  The `const` member access yields a range only
when the value is an object whose `components` member is an array; on
anything else (`default_json_` is an array) nlohmann's `const operator[]`
asserts — no component is ever produced. -/
def registerComponents (json : Json) : List (String × String) :=
  let comps := match json.getKey "components" with
               | some (.arr elems) => elems
               | _ => []
  comps.foldl (fun acc component => acc ++ registerComponent component) []

/-- **C2** (code bug).  Construction from a settings document that lacks a
`components` key — here the empty object — substitutes `default_json_`, but
that value is the array `["log_event", [...]]` with no `components` key, so
the registration loop never sees the six hard-coded default components and
the registered list comes out empty instead. -/
theorem default_components_never_registered :
    loadSettingComponents (Json.obj []) = default_json_ ∧
    registerComponents (loadSettingComponents (Json.obj [])) = [] :=
  ⟨rfl, rfl⟩

/-- The two parser states of `ComponentFactory::parsePattern`. -/
inductive patternState where
  | NORMAL_TEXT
  | PATTERN_CHAR
deriving DecidableEq, Repr

/-- `std::isalpha` on an ASCII `unsigned char` in the default locale. -/
def isalpha (c : Char) : Bool :=
  ('A' ≤ c && c ≤ 'Z') || ('a' ≤ c && c ≤ 'z')

/-- `auto curr_char = (rpos < size) ? pattern[rpos] : '\0';` -/
def currCharAt (p : List Char) (rpos : Nat) : Char :=
  if rpos < p.length then p.getD rpos '\x00' else '\x00'

/-- `pattern.substr(lpos, rpos - lpos)`. -/
def substrAt (p : List Char) (lpos rpos : Nat) : String :=
  String.mk ((p.drop lpos).take (rpos - lpos))

/-- The scanning loop of `ComponentFactory::parsePattern` (formatter_impl.hpp
lines 92-160), a two-state machine over positions `lpos ≤ rpos`.  In
NORMAL_TEXT a `'%'` or the end sentinel emits the pending literal as an
`("s", text)` token (and `'%'` moves to PATTERN_CHAR); in PATTERN_CHAR a
non-alphabetic character emits the accumulated letter *run* as a
`(run, "")` token and falls back to NORMAL_TEXT without consuming the
character (the C++ `continue` skips the `rpos++`).  `fuel` only bounds the
iteration count: every iteration either advances `rpos` (which exits the
loop once `rpos > size`) or switches PATTERN_CHAR → NORMAL_TEXT, which the
following iteration answers by advancing, so `parsePattern`'s fuel of
`2 * (size + 2) + 2` always runs the loop to completion. -/
def parseLoop (p : List Char) :
    Nat → patternState → Nat → Nat → List (String × String) → List (String × String)
  | 0, _, _, _, acc => acc
  | fuel + 1, state, lpos, rpos, acc =>
    if rpos ≤ p.length then
      let curr_char := currCharAt p rpos
      match state with
      | .NORMAL_TEXT =>
        if curr_char = '%' ∨ curr_char = '\x00' then
          let acc1 := if lpos < rpos then acc ++ [("s", substrAt p lpos rpos)] else acc
          if curr_char = '%' then
            parseLoop p fuel .PATTERN_CHAR (rpos + 1) (rpos + 1) acc1
          else
            parseLoop p fuel .NORMAL_TEXT lpos (rpos + 1) acc1
        else
          parseLoop p fuel .NORMAL_TEXT lpos (rpos + 1) acc
      | .PATTERN_CHAR =>
        if isalpha curr_char = false then
          let acc1 := if lpos < rpos then acc ++ [(substrAt p lpos rpos, "")] else acc
          parseLoop p fuel .NORMAL_TEXT rpos rpos acc1
        else
          parseLoop p fuel .PATTERN_CHAR lpos (rpos + 1) acc
    else acc

/-- The registration loop at the end of `parsePattern` (formatter_impl.hpp
lines 162-200), mapping one scanned token to its registered component:
single recognised pattern letters and literal text are kept, anything else —
in particular a run of two or more letters — registers nothing. -/
def patternComponent (type format : String) : List (String × String) :=
  if type = "t" then [("timestamp", "")]
  else if type = "p" then [("level", "")]
  else if type = "i" then [("tid", "")]
  else if type = "f" then [("loc", "{file_name}")]
  else if type = "n" then [("loc", "{function_name}")]
  else if type = "l" then [("loc", "{line}")]
  else if type = "m" then [("msg", "")]
  else if type = "s" then [("text", format)]
  else []

/-- `ComponentFactory::parsePattern` (formatter_impl.hpp lines 92-200):
scan the pattern, then register the tokens in order. -/
def parsePattern (pattern : String) : List (String × String) :=
  let comps := parseLoop pattern.data (2 * (pattern.length + 2) + 2) .NORMAL_TEXT 0 0 []
  comps.foldl (fun acc tf => acc ++ patternComponent tf.1 tf.2) []

/-- **C9.**  Parsing `"[%t] %p %m"` produces exactly
Text `"["`, Timestamp, Text `"] "`, Level, Text `" "`, Message, in order. -/
theorem parsePattern_roundtrip :
    parsePattern "[%t] %p %m" =
      [("text", "["), ("timestamp", ""), ("text", "] "), ("level", ""),
       ("text", " "), ("msg", "")] := by decide

/-- **C4, counterexample.**  On `"%tm"` the scanner stays in PATTERN_CHAR
across the whole letter run, emits the single token `("tm", "")`, and the
registration loop recognises no two-letter name — the result is the empty
directive list, not Timestamp followed by literal text `"m"`. -/
theorem percent_letter_not_single :
    parsePattern "%tm" = [] ∧
    parsePattern "%tm" ≠ [("timestamp", ""), ("text", "m")] := by decide

theorem patternComponent_two_chars (a b : Char) :
    patternComponent (String.mk [a, b]) "" = [] := by
  have h : ∀ s : List Char, s.length = 1 → String.mk [a, b] ≠ String.mk s := by
    intro s hs hcontra
    have hdata := congrArg String.data hcontra
    simp at hdata
    subst hdata
    simp at hs
  simp only [patternComponent]
  rw [if_neg (h ['t'] rfl), if_neg (h ['p'] rfl), if_neg (h ['i'] rfl),
      if_neg (h ['f'] rfl), if_neg (h ['n'] rfl), if_neg (h ['l'] rfl),
      if_neg (h ['m'] rfl), if_neg (h ['s'] rfl)]

theorem parseLoop_two_letters (a b : Char)
    (ha : isalpha a = true) (hb : isalpha b = true) :
    parseLoop ['%', a, b] 12 .NORMAL_TEXT 0 0 [] = [(String.mk [a, b], "")] := by
  have hperc : currCharAt ['%', a, b] 0 = '%' := by simp [currCharAt]
  have hca : currCharAt ['%', a, b] 1 = a := by simp [currCharAt]
  have hcb : currCharAt ['%', a, b] 2 = b := by simp [currCharAt]
  have hc3 : currCharAt ['%', a, b] 3 = '\x00' := by simp [currCharAt]
  simp [parseLoop, hperc, hca, hcb, hc3, ha, hb, substrAt,
        (by decide : isalpha '\x00' = false)]

/-- **C4, amended.**  A `%` followed by a run of ASCII letters consumes the
whole maximal run as one token; only a run of exactly one recognised letter
emits a directive.  In particular, for any two letters `a b` — `"%tm"`
included — the pattern `%ab` emits nothing at all: the second letter is not
literal text, it extends the token, and the two-letter token matches no
directive name. -/
theorem percent_letter_run_amended (a b : Char)
    (ha : isalpha a = true) (hb : isalpha b = true) :
    parsePattern (String.mk ['%', a, b]) = [] := by
  have hloop := parseLoop_two_letters a b ha hb
  simp [parsePattern, String.length, hloop, patternComponent_two_chars]

/-- Witness for `percent_letter_run_amended` at the claim's own example
`"%tm"`. -/
theorem percent_letter_run_amended_witness :
    parsePattern (String.mk ['%', 't', 'm']) = [] :=
  percent_letter_run_amended 't' 'm' (by decide) (by decide)

end AwLogger
